import Mathlib

/-!
Verification of the etag-validated S3 log cache
(`src/inspect_scout/_transcript/s3_log_cache.py`).

The module has three operations:

* `resolve_logs_with_etag` — expands a heterogeneous collection of log
  references into a flat list of `(path, etag)` pairs using an injected
  filesystem backend (stat plus recursive listing) and an external
  log-file recognizer;
* `get_cached_df` — reads a serialized table from an injected key-value
  store and returns it only when the stored etag equals the current one,
  collapsing every failure to a miss;
* `put_cached_df` — serializes a table together with its etag and stores
  it, swallowing every failure.

The embedding below models Python values parsed by `json.loads` with the
inductive `Json`; a stored blob is either well-formed JSON or malformed.
DataFrame cells are either JSON-serializable or opaque non-serializable
objects, which is what makes `df.to_json` fail. The key-value store is an
association list (newest entry first) together with a generic stateful
interface used to state frame properties; the filesystem backend is a
generic stateful interface as well.
-/

set_option maxHeartbeats 1000000

/-- JSON values as produced by Python `json.loads`: null, booleans, numbers
(restricted to integers in this model), strings, arrays and objects. -/
inductive Json where
  | null : Json
  | bool (b : Bool) : Json
  | num (n : Int) : Json
  | str (s : String) : Json
  | arr (elems : List Json) : Json
  | obj (fields : List (String × Json)) : Json

/-- A value held by the key-value store. `json.loads` either parses the raw
string into a JSON value or raises; a blob is therefore either well-formed
(represented by its parse result) or malformed (a raw string that
`json.loads` rejects). -/
inductive Blob where
  | json (j : Json) : Blob
  | malformed (raw : String) : Blob

/-- Python `json.loads` applied to a stored blob. -/
def jsonLoads : Blob → Except Unit Json
  | .json j => .ok j
  | .malformed _ => .error ()

/-- Python `d.get(k)` (default `None`), raising `AttributeError` when the
receiver is not a dict. A missing key and a stored JSON null both come back
as `None` in Python, hence both map to `Json.null` here. -/
def dictGet : Json → String → Except Unit Json
  | .obj fields, k =>
      .ok (match fields.find? (fun p => p.1 == k) with
        | some p => p.2
        | none => .null)
  | _, _ => .error ()

/-- Python `d.get(k, dflt)` with an explicit default, raising when the
receiver is not a dict. -/
def dictGetD : Json → String → Json → Except Unit Json
  | .obj fields, k, dflt =>
      .ok (match fields.find? (fun p => p.1 == k) with
        | some p => p.2
        | none => dflt)
  | _, _, _ => .error ()

/-- Python falsiness (`not x`) of a parsed JSON value. -/
def falsy : Json → Bool
  | .null => true
  | .bool b => !b
  | .num n => n == 0
  | .str s => s.isEmpty
  | .arr elems => elems.isEmpty
  | .obj fields => fields.isEmpty

/-- Python `==` between the stored etag (an arbitrary parsed JSON value) and
`current_etag` (a `str` or `None`). -/
def etagEq : Json → Option String → Bool
  | .null, none => true
  | .str s, some t => s == t
  | _, _ => false

/-- The etag argument as it appears inside the serialized cache record. -/
def etagToJson : Option String → Json
  | none => .null
  | some s => .str s

/-- A Python value held in a DataFrame cell: either JSON-serializable
(represented by its JSON image) or an object `df.to_json` cannot
serialize. -/
inductive PyVal where
  | json (j : Json) : PyVal
  | nonser (tag : String) : PyVal

/-- Whether a cell value survives serialization. -/
def isSerializable : PyVal → Bool
  | .json _ => true
  | .nonser _ => false

/-- The JSON image of a cell (null for the non-serializable case, which is
only ever used under a serializability hypothesis). -/
def unJson : PyVal → Json
  | .json j => j
  | .nonser _ => .null

/-- A pandas DataFrame, modelled as named columns plus row-major cells. -/
structure DataFrame where
  columns : List String
  rows : List (List PyVal)

/-- Every cell of the frame is JSON-serializable. -/
def dfSerializable (df : DataFrame) : Bool :=
  df.rows.all (fun r => r.all isSerializable)

/-- Effectful map over a list, stopping at the first failure. -/
def mapEx (f : α → Except Unit β) : List α → Except Unit (List β)
  | [] => .ok []
  | x :: xs =>
      match f x with
      | .error e => .error e
      | .ok b =>
          match mapEx f xs with
          | .error e => .error e
          | .ok bs => .ok (b :: bs)

/-- Serialization of one cell; fails on a non-serializable object. -/
def serializeCell : PyVal → Except Unit Json
  | .json j => .ok j
  | .nonser _ => .error ()

/-- Modelled from the spec: one record per row, keys = column names, values
the serialized cells (`df.to_json(orient=records)` produces row-major
records; pandas is an external collaborator, spec section 4.3 step 1). -/
def rowRecord (cols : List String) (row : List PyVal) : Except Unit Json :=
  match mapEx serializeCell row with
  | .error e => .error e
  | .ok vs => .ok (.obj (cols.zip vs))

/-- Modelled from the spec: `json.loads(df.to_json(orient=records))` — the
row-major record sequence of the frame, failing when any cell is not
serializable. -/
def dfToRecords (df : DataFrame) : Except Unit Json :=
  match mapEx (rowRecord df.columns) df.rows with
  | .error e => .error e
  | .ok recs => .ok (.arr recs)

/-- Append a key if it has not been seen yet. -/
def addUnique (acc : List String) (k : String) : List String :=
  if k ∈ acc then acc else acc ++ [k]

/-- Keys in order of first appearance. -/
def uniqueKeys (ks : List String) : List String := ks.foldl addUnique []

/-- Value of a record under a column, null-filled when the key is absent. -/
def recLookup (fields : List (String × Json)) (c : String) : Json :=
  match fields.find? (fun p => p.1 == c) with
  | some p => p.2
  | none => .null

/-- A record must be an object (a Python dict) to contribute a row. -/
def asObj : Json → Except Unit (List (String × Json))
  | .obj fields => .ok fields
  | _ => .error ()

/-- Modelled from the spec: `pandas.DataFrame.from_records` applied to the
decoded records value — requires a sequence of mappings, infers the column
layout as the union of keys in order of first appearance, and fills missing
cells with a null sentinel (spec section 4.2 step 5 and section 9). -/
def fromRecords : Json → Except Unit DataFrame
  | .arr recs =>
      match mapEx asObj recs with
      | .error e => .error e
      | .ok objs =>
          let cols := uniqueKeys ((objs.map (fun fields => fields.map Prod.fst)).flatten)
          .ok ⟨cols, objs.map (fun fields => cols.map (fun c => PyVal.json (recLookup fields c)))⟩
  | _ => .error ()

/-- The injected key-value store (`kvstore: Any` in the source): an opaque
state exposing get and put. -/
structure KVStore (σ : Type) where
  get : σ → String → Option Blob × σ
  put : σ → String → Blob → σ

/-- Concrete model store: an association list, newest entry first. -/
abbrev Store := List (String × Blob)

/-- Lookup in the concrete store. -/
def kv_get (store : Store) (key : String) : Option Blob :=
  match store.find? (fun e => e.1 == key) with
  | some e => some e.2
  | none => none

/-- Write to the concrete store (overwrites by shadowing older entries). -/
def kv_put (store : Store) (key : String) (v : Blob) : Store :=
  (key, v) :: store

/-- The concrete store packaged as a `KVStore`; its get is a pure read. -/
def listKV : KVStore Store :=
  ⟨fun s k => (kv_get s k, s), fun s k v => kv_put s k v⟩

/-- Body of `get_cached_df` after the `kvstore.get` call, with each failure
made explicit: decode the blob, read the stored etag, compare it with the
current etag, reject empty records, rebuild the frame. -/
def getCachedEx (cachedValue : Option Blob) (currentEtag : Option String) :
    Except Unit (Option DataFrame) :=
  match cachedValue with
  | none => .ok none
  | some cv =>
      match jsonLoads cv with
      | .error e => .error e
      | .ok cachedData =>
          match dictGet cachedData "etag" with
          | .error e => .error e
          | .ok cachedEtag =>
              if etagEq cachedEtag currentEtag then
                match dictGetD cachedData "records" (.arr []) with
                | .error e => .error e
                | .ok records =>
                    if falsy records then .ok none
                    else
                      match fromRecords records with
                      | .error e => .error e
                      | .ok df => .ok (some df)
              else .ok none

/-- `get_cached_df` from `s3_log_cache.py` over the concrete model store; the
enclosing try/except collapses every failure to `None`. -/
def get_cached_df (store : Store) (log_path : String)
    (current_etag : Option String) : Option DataFrame :=
  match getCachedEx (kv_get store log_path) current_etag with
  | .ok r => r
  | .error _ => none

/-- `get_cached_df` over an arbitrary injected kvstore, threading the store
state through the single `kvstore.get` call the function performs. -/
def get_cached_gen {σ : Type} (kv : KVStore σ) (s : σ) (log_path : String)
    (current_etag : Option String) : Option DataFrame × σ :=
  match kv.get s log_path with
  | (cv, s1) =>
      (match getCachedEx cv current_etag with
       | .ok r => r
       | .error _ => none, s1)

/-- `put_cached_df` from `s3_log_cache.py`: serialize the frame's rows, wrap
them with the etag, store under the path; any serialization failure is
swallowed and the call is a no-op. -/
def put_cached_df (store : Store) (log_path : String) (etag : Option String)
    (df : DataFrame) : Store :=
  match dfToRecords df with
  | .error _ => store
  | .ok records =>
      kv_put store log_path (.json (.obj [("etag", etagToJson etag), ("records", records)]))

/-- A file descriptor reported by the storage backend (`FileInfo` from
inspect_ai, restricted to the fields the source reads). -/
structure FileInfo where
  name : String
  type : String
  etag : Option String

/-- A pre-resolved log descriptor (`EvalLogInfo`, restricted to the field
the source reads). -/
structure EvalLogInfo where
  name : String

/-- One log reference: a filesystem path (`PathLike`), a raw string, or a
pre-resolved `EvalLogInfo`. -/
inductive LogRef where
  | pathlike (p : String) : LogRef
  | str (s : String) : LogRef
  | info (i : EvalLogInfo) : LogRef

/-- The `logs` argument: a single reference or a sequence of references. -/
inductive Logs where
  | single (r : LogRef) : Logs
  | many (rs : List LogRef) : Logs

/-- The normalization `[logs] if isinstance(logs, str | PathLike | EvalLogInfo) else logs`. -/
def logsList : Logs → List LogRef
  | .single r => [r]
  | .many rs => rs

/-- Normalize one reference to a plain path string: `Path(log).as_posix()`
for a `PathLike` (the conversion itself is the injected `asPosix`),
`log.name` for an `EvalLogInfo`, the string itself otherwise. -/
def normalizeRef (asPosix : String → String) : LogRef → String
  | .pathlike p => asPosix p
  | .info i => i.name
  | .str s => s

/-- The storage backend (`filesystem(log_str)` plus its `info` and `ls`
methods): an opaque state with stat and recursive-list operations, either of
which may fail. -/
structure Filesystem (σ : Type) where
  info : σ → String → Except String FileInfo × σ
  ls : σ → String → Bool → Except String (List FileInfo) × σ

/-- Expansion of one normalized path: stat it; a directory is listed
recursively keeping only files, anything else contributes its own
descriptor. -/
def expandLog {σ : Type} (fs : Filesystem σ) (s : σ) (logStr : String) :
    Except String (List FileInfo) × σ :=
  match fs.info s logStr with
  | (.error e, s1) => (.error e, s1)
  | (.ok i, s1) =>
      if i.type == "directory" then
        match fs.ls s1 i.name true with
        | (.error e, s2) => (.error e, s2)
        | (.ok fis, s2) => (.ok (fis.filter (fun fi => fi.type == "file")), s2)
      else (.ok [i], s1)

/-- The expansion loop of `resolve_logs_with_etag`: any failure aborts the
whole call. -/
def expandLogs {σ : Type} (fs : Filesystem σ) : σ → List String →
    Except String (List FileInfo) × σ
  | s, [] => (.ok [], s)
  | s, l :: ls =>
      match expandLog fs s l with
      | (.error e, s1) => (.error e, s1)
      | (.ok fis, s1) =>
          match expandLogs fs s1 ls with
          | (.error e, s2) => (.error e, s2)
          | (.ok rest, s2) => (.ok (fis ++ rest), s2)

/-- The dict comprehension mapping file name to etag (later entries win) and
its `.get`: `None` both for a missing name and for a descriptor without an
etag. -/
def etagMapGet (logPaths : List FileInfo) (name : String) : Option String :=
  match (logPaths.filter (fun fi => fi.name == name)).getLast? with
  | some fi => fi.etag
  | none => none

/-- `resolve_logs_with_etag` with the backend state threaded through:
normalize the references, expand directories, recognize log files via the
external `log_files_from_ls` collaborator (an opaque parameter here), and
pair each recognized file with its etag. -/
def resolveSt {σ : Type} (fs : Filesystem σ)
    (logFilesFromLs : List FileInfo → Bool → List EvalLogInfo)
    (asPosix : String → String) (s : σ) (logs : Logs) :
    Except String (List (String × Option String)) × σ :=
  let logsStr := (logsList logs).map (normalizeRef asPosix)
  match expandLogs fs s logsStr with
  | (.error e, s1) => (.error e, s1)
  | (.ok logPaths, s1) =>
      let logFiles := logFilesFromLs logPaths false
      (.ok (logFiles.map (fun lf => (lf.name, etagMapGet logPaths lf.name))), s1)

/-- The value `resolve_logs_with_etag` returns to its caller. -/
def resolve_logs_with_etag {σ : Type} (fs : Filesystem σ)
    (logFilesFromLs : List FileInfo → Bool → List EvalLogInfo)
    (asPosix : String → String) (s : σ) (logs : Logs) :
    Except String (List (String × Option String)) :=
  (resolveSt fs logFilesFromLs asPosix s logs).1

/-- The backend's stat and list operations are pure reads, as the spec
requires of the storage collaborator. -/
def ReadOnlyFS {σ : Type} (fs : Filesystem σ) : Prop :=
  (∀ s p, (fs.info s p).2 = s) ∧ (∀ s p r, (fs.ls s p r).2 = s)

/-- Concrete two-column, two-row serializable frame. -/
def sampleDf : DataFrame :=
  ⟨["a", "b"],
   [[.json (.num 1), .json (.str "x")], [.json (.bool true), .json .null]]⟩

/-- Concrete serializable one-cell frame. -/
def goodDf : DataFrame := ⟨["c"], [[.json (.num 7)]]⟩

/-- Concrete frame containing a non-serializable object. -/
def badDf : DataFrame := ⟨["a"], [[.nonser "socket0"]]⟩

/-- Second concrete frame containing a non-serializable object. -/
def badDf2 : DataFrame := ⟨["z"], [[.nonser "lock1"], [.json (.num 3)]]⟩

/-- Concrete zero-row frame. -/
def emptyDf : DataFrame := ⟨["a"], []⟩

/-- Concrete backend over a trivial state: every path stats as a file with
a fixed etag. -/
def fsGood : Filesystem Nat :=
  ⟨fun s p => (.ok ⟨p, "file", some "E"⟩, s), fun s _ _ => (.ok [], s)⟩

/-- Concrete backend whose stat fails on one particular path. -/
def fsBad : Filesystem Nat :=
  ⟨fun s p => ((if p == "bad" then .error "boom" else .ok ⟨p, "file", none⟩), s),
   fun s _ _ => (.ok [], s)⟩

/-- Concrete recognizer keeping every descriptor. -/
def recAll : List FileInfo → Bool → List EvalLogInfo :=
  fun fis _ => fis.map (fun fi => ⟨fi.name⟩)

lemma kv_get_put (store : Store) (key : String) (v : Blob) :
    kv_get (kv_put store key v) key = some v := by
  simp [kv_get, kv_put, List.find?_cons_of_pos]

lemma etagEq_toJson_self (e : Option String) : etagEq (etagToJson e) e = true := by
  cases e <;> simp [etagEq, etagToJson]

lemma etagEq_toJson_iff (a b : Option String) : etagEq (etagToJson a) b = true ↔ a = b := by
  cases a <;> cases b <;> simp [etagEq, etagToJson]

lemma mapEx_ok_length {α β : Type} {f : α → Except Unit β} :
    ∀ (l : List α) (bs : List β), mapEx f l = .ok bs → bs.length = l.length := by
  intro l
  induction l with
  | nil =>
      intro bs h
      simp only [mapEx, Except.ok.injEq] at h
      subst h
      rfl
  | cons x xs ih =>
      intro bs h
      simp only [mapEx] at h
      cases hf : f x with
      | error e => simp [hf] at h
      | ok b =>
          simp only [hf] at h
          cases hm : mapEx f xs with
          | error e => simp [hm] at h
          | ok cs =>
              simp only [hm, Except.ok.injEq] at h
              subst h
              simp [ih cs hm]

lemma mapEx_cells (r : List PyVal) (h : r.all isSerializable = true) :
    mapEx serializeCell r = .ok (r.map unJson) := by
  induction r with
  | nil => rfl
  | cons v vs ih =>
      simp only [List.all_cons, Bool.and_eq_true] at h
      cases v with
      | json j => simp [mapEx, serializeCell, unJson, ih h.2]
      | nonser t => simp [isSerializable] at h

lemma mapEx_rows (cols : List String) (rows : List (List PyVal))
    (h : rows.all (fun r => r.all isSerializable) = true) :
    mapEx (rowRecord cols) rows =
      .ok (rows.map (fun r => Json.obj (cols.zip (r.map unJson)))) := by
  induction rows with
  | nil => rfl
  | cons r rs ih =>
      simp only [List.all_cons, Bool.and_eq_true] at h
      simp [mapEx, rowRecord, mapEx_cells r h.1, ih h.2]

lemma dfToRecords_ok (df : DataFrame) (h : dfSerializable df = true) :
    dfToRecords df =
      .ok (.arr (df.rows.map (fun r => Json.obj (df.columns.zip (r.map unJson))))) := by
  simp only [dfSerializable] at h
  simp [dfToRecords, mapEx_rows df.columns df.rows h]

lemma mapEx_error {α β : Type} {f : α → Except Unit β} :
    ∀ (l : List α), (∃ a ∈ l, f a = .error ()) → mapEx f l = .error () := by
  intro l
  induction l with
  | nil =>
      rintro ⟨a, ha, _⟩
      cases ha
  | cons x xs ih =>
      rintro ⟨a, ha, hfa⟩
      simp only [mapEx]
      cases hf : f x with
      | error e => rfl
      | ok b =>
          rcases List.mem_cons.mp ha with h1 | h1
          · subst h1
            rw [hf] at hfa
            cases hfa
          · rw [ih ⟨a, h1, hfa⟩]

lemma dfToRecords_error (df : DataFrame) (h : dfSerializable df = false) :
    dfToRecords df = .error () := by
  simp only [dfSerializable, List.all_eq_false] at h
  obtain ⟨r, hr, hrf⟩ := h
  rw [Bool.not_eq_true, List.all_eq_false] at hrf
  obtain ⟨v, hv, hvf⟩ := hrf
  have hcell : serializeCell v = .error () := by
    cases v with
    | json j => simp [isSerializable] at hvf
    | nonser t => rfl
  have hrow : rowRecord df.columns r = .error () := by
    simp [rowRecord, mapEx_error r ⟨v, hv, hcell⟩]
  simp [dfToRecords, mapEx_error df.rows ⟨r, hr, hrow⟩]

/-- Claim C4: `put_cached_df` never surfaces an error to the caller: when
serialization of the frame fails (some cell is not JSON-serializable), the
failure is swallowed and the store is left exactly as it was — the call is
a no-op. -/
theorem c4_put_swallows_errors (store : Store) (p : String) (e : Option String)
    (df : DataFrame) (h : dfSerializable df = false) :
    put_cached_df store p e df = store := by
  simp [put_cached_df, dfToRecords_error df h]

theorem c4_put_swallows_errors_witness :
    dfSerializable badDf = false ∧ put_cached_df [] "a.log" (some "E1") badDf = [] :=
  ⟨by decide, c4_put_swallows_errors [] "a.log" (some "E1") badDf (by decide)⟩

/-- Claim C3: `get_cached_df` never raises: a missing key, a malformed
(non-JSON) blob, a decoded value of unexpected shape (not a dict), and in
general any failure inside the decode pipeline all yield a miss (`None`)
rather than an error. -/
theorem c3_get_never_raises (store : Store) (p : String) (cur : Option String) :
    (kv_get store p = none → get_cached_df store p cur = none) ∧
    (∀ raw, kv_get store p = some (.malformed raw) → get_cached_df store p cur = none) ∧
    (∀ j, kv_get store p = some (.json j) → (∀ fields, j ≠ .obj fields) →
      get_cached_df store p cur = none) ∧
    (getCachedEx (kv_get store p) cur = .error () → get_cached_df store p cur = none) := by
  refine ⟨?_, ?_, ?_, ?_⟩
  · intro h
    simp [get_cached_df, h, getCachedEx]
  · intro raw h
    simp [get_cached_df, h, getCachedEx, jsonLoads]
  · intro j h hobj
    cases j with
    | obj fields => exact absurd rfl (hobj fields)
    | null => simp [get_cached_df, h, getCachedEx, jsonLoads, dictGet]
    | bool b => simp [get_cached_df, h, getCachedEx, jsonLoads, dictGet]
    | num n => simp [get_cached_df, h, getCachedEx, jsonLoads, dictGet]
    | str s => simp [get_cached_df, h, getCachedEx, jsonLoads, dictGet]
    | arr elems => simp [get_cached_df, h, getCachedEx, jsonLoads, dictGet]
  · intro h
    simp [get_cached_df, h]

theorem c3_get_never_raises_witness :
    get_cached_df [] "never-written.log" (some "E") = none ∧
    get_cached_df [("bad.log", Blob.malformed "not json")] "bad.log" (some "E") = none ∧
    get_cached_df [("odd.log", Blob.json (.num 3))] "odd.log" none = none :=
  ⟨(c3_get_never_raises [] "never-written.log" (some "E")).1 rfl,
   (c3_get_never_raises [("bad.log", Blob.malformed "not json")] "bad.log"
      (some "E")).2.1 "not json" rfl,
   (c3_get_never_raises [("odd.log", Blob.json (.num 3))] "odd.log" none).2.2.1
      (.num 3) rfl (fun _ h => Json.noConfusion h)⟩

/-- Claim C9: `get_cached_df` only reads the injected store: when the
store's get operation is a pure read, the store state after the call is
exactly the state before it, so no entry — in particular no stale
(etag-mismatching) entry — is deleted or overwritten. -/
theorem c9_get_preserves_store {σ : Type} (kv : KVStore σ)
    (hRO : ∀ s k, (kv.get s k).2 = s) (s : σ) (p : String) (cur : Option String) :
    (get_cached_gen kv s p cur).2 = s := by
  have hs := hRO s p
  unfold get_cached_gen
  rcases hget : kv.get s p with ⟨cv, s1⟩
  rw [hget] at hs
  exact hs

theorem c9_get_preserves_store_witness :
    (get_cached_gen listKV [("a.log", Blob.malformed "x")] "a.log" none).2 =
      [("a.log", Blob.malformed "x")] :=
  c9_get_preserves_store listKV (fun _ _ => rfl)
    [("a.log", Blob.malformed "x")] "a.log" none

/-- Claim C10: resolving a single (non-sequence) reference returns exactly
the same result as resolving the one-element sequence containing it. -/
theorem c10_single_eq_list {σ : Type} (fs : Filesystem σ)
    (logFilesFromLs : List FileInfo → Bool → List EvalLogInfo)
    (asPosix : String → String) (s : σ) (r : LogRef) :
    resolve_logs_with_etag fs logFilesFromLs asPosix s (.single r) =
      resolve_logs_with_etag fs logFilesFromLs asPosix s (.many [r]) := rfl

lemma foldl_addUnique_disjoint :
    ∀ (cols acc : List String), cols.Nodup → (∀ c ∈ cols, c ∉ acc) →
      List.foldl addUnique acc cols = acc ++ cols := by
  intro cols
  induction cols with
  | nil =>
      intro acc _ _
      simp
  | cons c cs ih =>
      intro acc hnd hdisj
      have hc : c ∉ acc := hdisj c (List.mem_cons_self c cs)
      have step : addUnique acc c = acc ++ [c] := by simp [addUnique, hc]
      have hrest : ∀ x ∈ cs, x ∉ acc ++ [c] := by
        intro x hx hmem
        rcases List.mem_append.mp hmem with h1 | h1
        · exact hdisj x (List.mem_cons_of_mem c hx) h1
        · rw [List.mem_singleton] at h1
          subst h1
          exact (List.nodup_cons.mp hnd).1 hx
      rw [List.foldl_cons, step, ih (acc ++ [c]) (List.Nodup.of_cons hnd) hrest]
      simp

lemma foldl_addUnique_subset :
    ∀ (ks acc : List String), (∀ k ∈ ks, k ∈ acc) →
      List.foldl addUnique acc ks = acc := by
  intro ks
  induction ks with
  | nil =>
      intro acc _
      rfl
  | cons k ks ih =>
      intro acc h
      have hk : addUnique acc k = acc := by
        simp [addUnique, h k (List.mem_cons_self k ks)]
      rw [List.foldl_cons, hk]
      exact ih acc (fun x hx => h x (List.mem_cons_of_mem k hx))

lemma uniqueKeys_append (cols rest : List String) (hnd : cols.Nodup)
    (hsub : ∀ k ∈ rest, k ∈ cols) : uniqueKeys (cols ++ rest) = cols := by
  unfold uniqueKeys
  rw [List.foldl_append,
    foldl_addUnique_disjoint cols [] hnd (fun c _ h => (List.not_mem_nil c) h)]
  simpa using foldl_addUnique_subset rest cols hsub

lemma mem_flatten_const {α : Type} (xs : List α) (cols : List String) :
    ∀ k ∈ (xs.map (fun _ => cols)).flatten, k ∈ cols := by
  intro k hk
  rcases List.mem_flatten.mp hk with ⟨l, hl, hkl⟩
  rcases List.mem_map.mp hl with ⟨x, _, rfl⟩
  exact hkl

lemma mapEx_asObj {α : Type} (g : α → List (String × Json)) :
    ∀ (l : List α), mapEx asObj (l.map (fun x => Json.obj (g x))) = .ok (l.map g) := by
  intro l
  induction l with
  | nil => rfl
  | cons x xs ih => simp [mapEx, asObj, ih]

lemma zip_recLookup :
    ∀ (cols : List String) (vs : List Json), cols.Nodup → vs.length = cols.length →
      cols.map (fun c => recLookup (cols.zip vs) c) = vs := by
  intro cols
  induction cols with
  | nil =>
      intro vs _ hl
      cases vs with
      | nil => rfl
      | cons v vt => simp at hl
  | cons c cs ih =>
      intro vs hnd hl
      cases vs with
      | nil => simp at hl
      | cons v vt =>
          simp only [List.length_cons, Nat.succ.injEq] at hl
          have hhead : recLookup ((c :: cs).zip (v :: vt)) c = v := by
            simp [recLookup, List.zip_cons_cons, List.find?_cons]
          have htail : ∀ x ∈ cs, recLookup ((c :: cs).zip (v :: vt)) x =
              recLookup (cs.zip vt) x := by
            intro x hx
            have hne : (c == x) = false := by
              rw [beq_eq_false_iff_ne]
              intro h
              subst h
              exact (List.nodup_cons.mp hnd).1 hx
            simp [recLookup, List.zip_cons_cons, List.find?_cons, hne]
          calc (c :: cs).map (fun x => recLookup ((c :: cs).zip (v :: vt)) x)
              = recLookup ((c :: cs).zip (v :: vt)) c ::
                  cs.map (fun x => recLookup ((c :: cs).zip (v :: vt)) x) := by
                rw [List.map_cons]
            _ = v :: cs.map (fun x => recLookup (cs.zip vt) x) := by
                rw [hhead, List.map_congr_left htail]
            _ = v :: vt := by rw [ih vt (List.nodup_cons.mp hnd).2 hl]

lemma map_unJson_id (r : List PyVal) (h : r.all isSerializable = true) :
    r.map (fun v => PyVal.json (unJson v)) = r := by
  induction r with
  | nil => rfl
  | cons v vs ih =>
      simp only [List.all_cons, Bool.and_eq_true] at h
      cases v with
      | json j =>
          rw [List.map_cons, ih h.2]
          rfl
      | nonser t => simp [isSerializable] at h

lemma fromRecords_roundtrip (cols : List String) (rows : List (List PyVal))
    (hnd : cols.Nodup) (hlen : ∀ r ∈ rows, r.length = cols.length)
    (hser : rows.all (fun r => r.all isSerializable) = true)
    (hne : rows ≠ []) :
    fromRecords (.arr (rows.map (fun r => Json.obj (cols.zip (r.map unJson))))) =
      .ok ⟨cols, rows⟩ := by
  have hobjs := mapEx_asObj (fun r => cols.zip (r.map unJson)) rows
  have hkeys : (rows.map (fun r => cols.zip (r.map unJson))).map
      (fun fields => fields.map Prod.fst) = rows.map (fun _ => cols) := by
    rw [List.map_map]
    apply List.map_congr_left
    intro r hr
    simp only [Function.comp]
    apply List.map_fst_zip
    rw [List.length_map, hlen r hr]
  have hcols : uniqueKeys (((rows.map (fun r => cols.zip (r.map unJson))).map
      (fun fields => fields.map Prod.fst)).flatten) = cols := by
    rw [hkeys]
    cases rows with
    | nil => exact absurd rfl hne
    | cons r0 rest =>
        rw [List.map_cons, List.flatten_cons]
        exact uniqueKeys_append cols _ hnd (mem_flatten_const rest cols)
  have hrows2 : (rows.map (fun r => cols.zip (r.map unJson))).map
      (fun fields => cols.map (fun c => PyVal.json (recLookup fields c))) = rows := by
    rw [List.map_map]
    have hpt : ∀ r ∈ rows,
        cols.map (fun c => PyVal.json (recLookup (cols.zip (r.map unJson)) c)) = r := by
      intro r hr
      have hlone : (r.map unJson).length = cols.length := by
        rw [List.length_map, hlen r hr]
      have h2 := congrArg (List.map PyVal.json)
        (zip_recLookup cols (r.map unJson) hnd hlone)
      rw [List.map_map, List.map_map] at h2
      have h3 : cols.map (fun c => PyVal.json (recLookup (cols.zip (r.map unJson)) c)) =
          r.map (fun v => PyVal.json (unJson v)) := by
        simpa [Function.comp] using h2
      rw [h3, map_unJson_id r (List.all_eq_true.mp hser r hr)]
    calc List.map ((fun fields => cols.map fun c => PyVal.json (recLookup fields c)) ∘
          fun r => cols.zip (List.map unJson r)) rows
        = List.map (fun r => r) rows := List.map_congr_left (fun r hr => hpt r hr)
      _ = rows := by simp
  simp only [fromRecords, hobjs, hcols, hrows2]

lemma put_get_hit (store : Store) (p : String) (e : Option String) (df : DataFrame)
    (hnd : df.columns.Nodup)
    (hlen : ∀ r ∈ df.rows, r.length = df.columns.length)
    (hser : dfSerializable df = true)
    (hne : df.rows.isEmpty = false) :
    get_cached_df (put_cached_df store p e df) p e = some df := by
  have hne' : df.rows ≠ [] := by
    intro h
    rw [h] at hne
    simp [List.isEmpty] at hne
  have hser' : df.rows.all (fun r => r.all isSerializable) = true := hser
  have hfr := fromRecords_roundtrip df.columns df.rows hnd hlen hser' hne'
  have hfalsy : falsy (.arr (df.rows.map
      (fun r => Json.obj (df.columns.zip (r.map unJson))))) = false := by
    cases hrw : df.rows with
    | nil => exact absurd hrw hne'
    | cons r0 rest => simp [falsy, hrw]
  simp [get_cached_df, put_cached_df, dfToRecords_ok df hser, kv_get_put,
    getCachedEx, jsonLoads, dictGet, dictGetD, etagEq_toJson_self, hfalsy, hfr]

/-- Claim C1 counterexample: for the non-empty frame `badDf`, whose single
cell is not JSON-serializable, the write is silently dropped, so the
subsequent read with the same etag returns a miss instead of a table equal
to the frame. -/
theorem c1_counterexample :
    badDf.rows.isEmpty = false ∧
    get_cached_df (put_cached_df [] "a.log" (some "E1") badDf) "a.log"
      (some "E1") = none :=
  ⟨rfl, rfl⟩

/-- Claim C1 (amended): for every non-empty table with distinct column names,
one value per column in each row and only JSON-serializable cell values,
`put_cached_df` followed by `get_cached_df` with the same etag returns a
table equal row-for-row to the one written. -/
theorem c1_put_get_roundtrip (store : Store) (p : String) (e : Option String)
    (df : DataFrame) (hnd : df.columns.Nodup)
    (hlen : ∀ r ∈ df.rows, r.length = df.columns.length)
    (hser : dfSerializable df = true) (hne : df.rows.isEmpty = false) :
    get_cached_df (put_cached_df store p e df) p e = some df :=
  put_get_hit store p e df hnd hlen hser hne

theorem c1_put_get_roundtrip_witness :
    get_cached_df (put_cached_df [] "a.log" (some "E1") sampleDf) "a.log"
      (some "E1") = some sampleDf :=
  c1_put_get_roundtrip [] "a.log" (some "E1") sampleDf (by decide) (by decide)
    (by decide) (by decide)

/-- Claim C2 counterexample: with a valid entry for the path already cached
under etag E2, a subsequent `put_cached_df` under etag E1 of a frame whose
cell is not serializable is silently dropped, so `get_cached_df` with E2
still returns a table even though E2 differs from E1. -/
theorem c2_counterexample :
    (some "E1" : Option String) ≠ some "E2" ∧
    (get_cached_df (put_cached_df (put_cached_df [] "c.log" (some "E2") goodDf)
        "c.log" (some "E1") badDf) "c.log" (some "E2")).isSome = true :=
  ⟨by decide, rfl⟩

/-- Claim C2 (amended): for every store state, path, etags E1 and E2 distinct
from each other, and every table whose cells are all JSON-serializable (so
that the write actually lands), a read with E2 after a write with E1 returns
a miss: the stored etag is compared for exact equality and any mismatch is a
miss. -/
theorem c2_mismatch_miss (store : Store) (p : String) (e1 e2 : Option String)
    (df : DataFrame) (hser : dfSerializable df = true) (hne : e1 ≠ e2) :
    get_cached_df (put_cached_df store p e1 df) p e2 = none := by
  have hmm : etagEq (etagToJson e1) e2 = false := by
    by_contra h
    rw [Bool.not_eq_false] at h
    exact hne ((etagEq_toJson_iff e1 e2).mp h)
  simp [get_cached_df, put_cached_df, dfToRecords_ok df hser, kv_get_put,
    getCachedEx, jsonLoads, dictGet, hmm]

theorem c2_mismatch_miss_witness :
    get_cached_df (put_cached_df [] "d.log" (some "E1") goodDf) "d.log"
      (some "E2") = none :=
  c2_mismatch_miss [] "d.log" (some "E1") (some "E2") goodDf (by decide) (by decide)

/-- Claim C5 counterexample: a non-empty frame containing a non-serializable
cell is silently dropped on write, so the absent-etag read misses instead of
returning the cached table. -/
theorem c5_counterexample :
    badDf2.rows.isEmpty = false ∧
    get_cached_df (put_cached_df [] "b.log" none badDf2) "b.log" none = none :=
  ⟨rfl, rfl⟩

/-- Claim C5 (amended): for every path and non-empty table with distinct
column names, aligned rows and only JSON-serializable cells, a write with an
absent etag followed by a read with an absent current etag returns the
cached table: an absent stored etag and an absent current etag are treated
as equal. -/
theorem c5_absent_etag_hit (store : Store) (p : String) (df : DataFrame)
    (hnd : df.columns.Nodup)
    (hlen : ∀ r ∈ df.rows, r.length = df.columns.length)
    (hser : dfSerializable df = true) (hne : df.rows.isEmpty = false) :
    get_cached_df (put_cached_df store p none df) p none = some df :=
  put_get_hit store p none df hnd hlen hser hne

theorem c5_absent_etag_hit_witness :
    get_cached_df (put_cached_df [] "local.log" none goodDf) "local.log" none =
      some goodDf :=
  c5_absent_etag_hit [] "local.log" goodDf (by decide) (by decide) (by decide)
    (by decide)

lemma put_get_empty (store : Store) (p : String) (e : Option String)
    (df : DataFrame) (h : df.rows = []) :
    get_cached_df (put_cached_df store p e df) p e = none := by
  have hrecs : dfToRecords df = .ok (.arr []) := by
    simp [dfToRecords, h, mapEx]
  simp [get_cached_df, put_cached_df, hrecs, kv_get_put, getCachedEx, jsonLoads,
    dictGet, dictGetD, etagEq_toJson_self, falsy]

lemma getCachedEx_records (cv : Option Blob) (cur : Option String) (df : DataFrame)
    (h : getCachedEx cv cur = .ok (some df)) :
    ∃ records, falsy records = false ∧ fromRecords records = .ok df := by
  cases cv with
  | none => simp [getCachedEx] at h
  | some b =>
      cases b with
      | malformed raw => simp [getCachedEx, jsonLoads] at h
      | json j =>
          cases j with
          | obj fields =>
              simp only [getCachedEx, jsonLoads, dictGet, dictGetD] at h
              split at h
              · split at h
                · exact absurd h (by simp)
                · split at h
                  · exact absurd h (by simp)
                  · rename_i hfal _ df' heq
                    have hdf : df' = df := by
                      injection h with h2
                      injection h2
                    subst hdf
                    refine ⟨_, ?_, heq⟩
                    simpa using hfal
              · exact absurd h (by simp)
          | null => simp [getCachedEx, jsonLoads, dictGet] at h
          | bool b2 => simp [getCachedEx, jsonLoads, dictGet] at h
          | num n => simp [getCachedEx, jsonLoads, dictGet] at h
          | str s => simp [getCachedEx, jsonLoads, dictGet] at h
          | arr elems => simp [getCachedEx, jsonLoads, dictGet] at h

lemma get_some_nonempty (store : Store) (p : String) (cur : Option String)
    (df : DataFrame) (h : get_cached_df store p cur = some df) :
    df.rows.isEmpty = false := by
  have hex : getCachedEx (kv_get store p) cur = .ok (some df) := by
    unfold get_cached_df at h
    cases hx : getCachedEx (kv_get store p) cur with
    | error e =>
        rw [hx] at h
        simp at h
    | ok r =>
        rw [hx] at h
        simp only at h
        rw [h]
  obtain ⟨records, hfal, hfr⟩ := getCachedEx_records _ _ _ hex
  cases records with
  | arr recs =>
      cases recs with
      | nil => simp [falsy] at hfal
      | cons r0 rest =>
          simp only [fromRecords] at hfr
          cases hm : mapEx asObj (r0 :: rest) with
          | error e =>
              rw [hm] at hfr
              simp at hfr
          | ok objs =>
              rw [hm] at hfr
              simp only [Except.ok.injEq] at hfr
              have hlen := mapEx_ok_length (r0 :: rest) objs hm
              rw [← hfr]
              cases objs with
              | nil => simp at hlen
              | cons o os => simp
  | null => simp [fromRecords] at hfr
  | bool b2 => simp [fromRecords] at hfr
  | num n => simp [fromRecords] at hfr
  | str s => simp [fromRecords] at hfr
  | obj fields => simp [fromRecords] at hfr

/-- Claim C6: an empty cached table is a miss: writing a zero-row frame and
reading it back with the matching etag returns a miss, and whenever
`get_cached_df` does return a frame, that frame has at least one row. -/
theorem c6_empty_records_miss (store : Store) (p : String) (e : Option String) :
    (∀ df : DataFrame, df.rows = [] →
        get_cached_df (put_cached_df store p e df) p e = none) ∧
    (∀ df : DataFrame, get_cached_df store p e = some df → df.rows.isEmpty = false) :=
  ⟨fun df h => put_get_empty store p e df h,
   fun df h => get_some_nonempty store p e df h⟩

theorem c6_empty_records_miss_witness :
    get_cached_df (put_cached_df [] "e.log" (some "E7") emptyDf) "e.log"
      (some "E7") = none ∧
    goodDf.rows.isEmpty = false :=
  ⟨(c6_empty_records_miss [] "e.log" (some "E7")).1 emptyDf rfl,
   (c6_empty_records_miss (put_cached_df [] "w.log" (some "E") goodDf) "w.log"
      (some "E")).2 goodDf rfl⟩

lemma expandLog_snd {σ : Type} (fs : Filesystem σ) (h : ReadOnlyFS fs) (s : σ)
    (l : String) : (expandLog fs s l).2 = s := by
  have hinfo := h.1 s l
  unfold expandLog
  split
  · rename_i e s1 heq
    rw [heq] at hinfo
    exact hinfo
  · rename_i i s1 heq
    rw [heq] at hinfo
    split
    · have hls := h.2 s1 i.name true
      split
      · rename_i e2 s2 heq2
        rw [heq2] at hls
        exact hls.trans hinfo
      · rename_i fis s2 heq2
        rw [heq2] at hls
        exact hls.trans hinfo
    · exact hinfo

lemma expandLogs_snd {σ : Type} (fs : Filesystem σ) (h : ReadOnlyFS fs) :
    ∀ (ls : List String) (s : σ), (expandLogs fs s ls).2 = s := by
  intro ls
  induction ls with
  | nil =>
      intro s
      rfl
  | cons l rest ih =>
      intro s
      have hone := expandLog_snd fs h s l
      unfold expandLogs
      split
      · rename_i e s1 heq
        rw [heq] at hone
        exact hone
      · rename_i fis s1 heq
        rw [heq] at hone
        have hrest := ih s1
        split
        · rename_i e2 s2 heq2
          rw [heq2] at hrest
          exact hrest.trans hone
        · rename_i r2 s2 heq2
          rw [heq2] at hrest
          exact hrest.trans hone

lemma resolveSt_snd {σ : Type} (fs : Filesystem σ)
    (lf : List FileInfo → Bool → List EvalLogInfo) (ap : String → String)
    (h : ReadOnlyFS fs) (s : σ) (logs : Logs) :
    (resolveSt fs lf ap s logs).2 = s := by
  have hexp := expandLogs_snd fs h ((logsList logs).map (normalizeRef ap)) s
  simp only [resolveSt]
  split
  · rename_i e s1 heq
    rw [heq] at hexp
    exact hexp
  · rename_i lp s1 heq
    rw [heq] at hexp
    exact hexp

/-- Claim C7: against a backend whose stat and list operations are pure
reads, resolve leaves the backend state exactly as it found it, and a second
resolve of the same input on the state left behind by the first returns the
identical result — resolve is a deterministic, read-only function of its
input and the backend state. -/
theorem c7_resolve_idempotent {σ : Type} (fs : Filesystem σ)
    (logFilesFromLs : List FileInfo → Bool → List EvalLogInfo)
    (asPosix : String → String) (hRO : ReadOnlyFS fs) (s : σ) (logs : Logs) :
    (resolveSt fs logFilesFromLs asPosix s logs).2 = s ∧
    resolve_logs_with_etag fs logFilesFromLs asPosix
        ((resolveSt fs logFilesFromLs asPosix s logs).2) logs =
      resolve_logs_with_etag fs logFilesFromLs asPosix s logs := by
  have h1 := resolveSt_snd fs logFilesFromLs asPosix hRO s logs
  exact ⟨h1, by rw [h1]⟩

theorem c7_resolve_idempotent_witness :
    (resolveSt fsGood recAll id 0 (.many [.str "a.log", .pathlike "b"])).2 = 0 ∧
    resolve_logs_with_etag fsGood recAll id
        ((resolveSt fsGood recAll id 0 (.many [.str "a.log", .pathlike "b"])).2)
        (.many [.str "a.log", .pathlike "b"]) =
      resolve_logs_with_etag fsGood recAll id 0 (.many [.str "a.log", .pathlike "b"]) :=
  c7_resolve_idempotent fsGood recAll id ⟨fun _ _ => rfl, fun _ _ _ => rfl⟩ 0
    (.many [.str "a.log", .pathlike "b"])

lemma expandLogs_error {σ : Type} (fs : Filesystem σ) (h : ReadOnlyFS fs) (e : String) :
    ∀ (pres : List String) (s : σ) (lr : String) (posts : List String),
      (∀ l ∈ pres, ∃ v, (expandLog fs s l).1 = .ok v) →
      (expandLog fs s lr).1 = .error e →
      (expandLogs fs s (pres ++ lr :: posts)).1 = .error e := by
  intro pres
  induction pres with
  | nil =>
      intro s lr posts _ herr
      rw [List.nil_append]
      unfold expandLogs
      split
      · rename_i e2 s1 heq
        rw [heq] at herr
        exact herr
      · rename_i fis s1 heq
        rw [heq] at herr
        exact absurd herr (by simp)
  | cons l rest ih =>
      intro s lr posts hpre herr
      rw [List.cons_append]
      unfold expandLogs
      obtain ⟨v, hv⟩ := hpre l (List.mem_cons_self l rest)
      have hone := expandLog_snd fs h s l
      split
      · rename_i e2 s1 heq
        rw [heq] at hv
        exact absurd hv (by simp)
      · rename_i fis s1 heq
        rw [heq] at hone
        have hs1 : s1 = s := hone
        have hrec := ih s lr posts (fun x hx => hpre x (List.mem_cons_of_mem l hx)) herr
        rw [hs1]
        split
        · rename_i e2 s2 heq2
          rw [heq2] at hrec
          exact hrec
        · rename_i r2 s2 heq2
          rw [heq2] at hrec
          exact absurd hrec (by simp)

/-- Claim C8: when the backend's stat or list operation fails for one of the
given references (every reference before it expanding without failure),
resolve returns exactly that failure, with no partial result list. -/
theorem c8_resolve_error_propagates {σ : Type} (fs : Filesystem σ)
    (logFilesFromLs : List FileInfo → Bool → List EvalLogInfo)
    (asPosix : String → String) (hRO : ReadOnlyFS fs) (s : σ)
    (pre : List LogRef) (r : LogRef) (post : List LogRef) (e : String)
    (hpre : ∀ l ∈ pre, ∃ v, (expandLog fs s (normalizeRef asPosix l)).1 = .ok v)
    (herr : (expandLog fs s (normalizeRef asPosix r)).1 = .error e) :
    resolve_logs_with_etag fs logFilesFromLs asPosix s (.many (pre ++ r :: post)) =
      .error e := by
  have hpre' : ∀ l ∈ pre.map (normalizeRef asPosix), ∃ v,
      (expandLog fs s l).1 = .ok v := by
    intro l hl
    rcases List.mem_map.mp hl with ⟨x, hx, rfl⟩
    exact hpre x hx
  have hexp := expandLogs_error fs hRO e (pre.map (normalizeRef asPosix)) s
    (normalizeRef asPosix r) (post.map (normalizeRef asPosix)) hpre' herr
  have hmap : (logsList (.many (pre ++ r :: post))).map (normalizeRef asPosix) =
      (pre.map (normalizeRef asPosix)) ++ (normalizeRef asPosix r) ::
        (post.map (normalizeRef asPosix)) := by
    simp [logsList]
  unfold resolve_logs_with_etag
  simp only [resolveSt, hmap]
  split
  · rename_i e2 s2 heq
    rw [heq] at hexp
    have he : e2 = e := by simpa using hexp
    simp [he]
  · rename_i lp s2 heq
    rw [heq] at hexp
    exact absurd hexp (by simp)

theorem c8_resolve_error_propagates_witness :
    resolve_logs_with_etag fsBad recAll id 0
        (.many [.str "good.log", .str "bad", .str "tail.log"]) = .error "boom" :=
  c8_resolve_error_propagates fsBad recAll id ⟨fun _ _ => rfl, fun _ _ _ => rfl⟩ 0
    [.str "good.log"] (.str "bad") [.str "tail.log"] "boom"
    (fun l hl => by
      rw [List.mem_singleton] at hl
      subst hl
      exact ⟨[⟨"good.log", "file", none⟩], rfl⟩)
    rfl
